import Mathlib

/-!
Shallow embedding of `pkg/reconciler/route/traffic/rollout.go`.

Modelling conventions:
  - Go `int` is modelled as unbounded `Int`.  The quantities involved are
    whole percentage points (0..100 in the intended domain) and Unix
    timestamps, far from the `int64` range where Go arithmetic wraps.
  - Go `float64` arithmetic (`computeProperties`, `ObserveReady`) is
    modelled by exact rational arithmetic on explicit fractions
    (`GoFloat`); `math.Floor`, `math.Ceil` and the `int(·)` conversion
    (truncation toward zero) become `GoFloat.floor`, `GoFloat.ceil` and
    `GoFloat.trunc`.  All concrete evaluations below stay far from any
    rounding boundary, so the modelled values coincide with the IEEE-754
    double values computed by the source.
  - Go runtime panics (out-of-range slice indexing) are modelled by
    `Option.none`; functions that cannot panic stay total.
  - Go's map iteration order is non-deterministic but `Step` sorts its
    output, so the embedding iterates tags in a fixed order; the final
    sorted result is the same for inputs without duplicate
    (tag, configuration name) pairs.
-/

namespace Traffic

/-- `RevisionRollout` from rollout.go: the revision name and its share of
total route traffic. -/
structure RevisionRollout where
  revisionName : String
  percent : Int := 0
deriving Repr, DecidableEq

/-- `ConfigurationRollout` from rollout.go: the rollout state for one
config+tag pair. -/
structure ConfigurationRollout where
  configurationName : String
  tag : String := ""
  percent : Int := 0
  revisions : List RevisionRollout := []
  deadline : Int := 0
  startTime : Int := 0
  nextStepTime : Int := 0
  stepDuration : Int := 0
  stepSize : Int := 0
deriving Repr, DecidableEq

/-- `Rollout` from rollout.go: the configurations, sorted by tag and then
by configuration name. -/
structure Rollout where
  configurations : List ConfigurationRollout := []
deriving Repr, DecidableEq

/-- Sum of the revisions' percentages. -/
def sumPercents (l : List RevisionRollout) : Int :=
  (l.map (·.percent)).sum

/-- The `diff > 0` branch of `adjustPercentage`:
`cr.Revisions[len(cr.Revisions)-1].Percent += diff`. -/
def addToLast : List RevisionRollout → Int → List RevisionRollout
  | [], _ => []
  | [r], d => [{ r with percent := r.percent + d }]
  | r :: s :: rs, d => r :: addToLast (s :: rs) d

/-- The `diff < 0` loop of `adjustPercentage` (rollout.go:231-240):
subtract `d` from the front of the list, dropping fully drained
revisions, keeping a partially drained one. -/
def shrinkRevs (l : List RevisionRollout) (d : Int) : List RevisionRollout :=
  if d ≤ 0 then l
  else
    match l with
    | [] => []
    | r :: rs =>
      if d < r.percent then { r with percent := r.percent - d } :: rs
      else shrinkRevs rs (d - r.percent)

/-- `adjustPercentage` (rollout.go:223-244).  Mutation is modelled by
returning the updated record.  The `diff > 0` branch indexes
`cr.Revisions[len(cr.Revisions)-1]`, which panics in Go when the list is
empty; that panic is modelled by `none`. -/
def adjustPercentage (goal : Int) (cr : ConfigurationRollout) :
    Option ConfigurationRollout :=
  let diff := goal - cr.percent
  if goal = 0 then some { cr with revisions := [] }
  else if 0 < diff then
    match cr.revisions with
    | [] => none
    | _ :: _ => some { cr with revisions := addToLast cr.revisions diff }
  else if diff < 0 then
    some { cr with revisions := shrinkRevs cr.revisions (-diff) }
  else some cr

/-- The draining loop of `stepRevisions` (rollout.go:269-282), acting on
the non-final revisions listed newest-first (the Go loop walks
`readPos` from `revLen-2` down to `0`). -/
def drainRev (l : List RevisionRollout) (rem : Int) : List RevisionRollout :=
  if rem ≤ 0 then l
  else
    match l with
    | [] => []
    | r :: rs =>
      if rem < r.percent then { r with percent := r.percent - rem } :: rs
      else drainRev rs (rem - r.percent)

/-- `stepRevisions` (rollout.go:248-297).  Moves `StepSize` points toward
the newest revision, starting from the second-newest revision and walking
toward the oldest, capping the newest at `Percent`, and advancing
`NextStepTime`. -/
def stepRevisions (goal : ConfigurationRollout) (nowTS : Int) :
    ConfigurationRollout :=
  if nowTS < goal.nextStepTime then goal
  else if goal.revisions.length < 2 then goal
  else
    match goal.revisions.reverse with
    | [] => goal
    | last :: oldsRev =>
      let kept := drainRev oldsRev goal.stepSize
      let boosted := last.percent + goal.stepSize
      let newPct := if goal.percent < boosted then goal.percent else boosted
      { goal with
        revisions := ({ last with percent := newPct } :: kept).reverse
        nextStepTime := nowTS + goal.stepDuration }

/-- The backward search of `stepConfig` (rollout.go:345-350): decrement
the newest revision with positive traffic, if any. -/
def stealOne : List RevisionRollout → List RevisionRollout
  | [] => []
  | r :: rs =>
    if rs.any (fun x => decide (0 < x.percent)) then r :: stealOne rs
    else if 0 < r.percent then { r with percent := r.percent - 1 } :: rs
    else r :: rs

/-- `stepConfig` (rollout.go:301-372).  `pc` is captured before
`adjustPercentage` may compact `prev.Revisions`; the subsequent read of
`prev.Revisions[pc-1]` is modelled with `List.get?`, yielding `none`
(the Go index-out-of-range panic) when the compacted list is shorter. -/
def stepConfig (goal prev : ConfigurationRollout) (nowTS : Int) :
    Option ConfigurationRollout :=
  let pc := prev.revisions.length
  let ret0 : ConfigurationRollout :=
    { configurationName := goal.configurationName
      tag := goal.tag
      percent := goal.percent
      revisions := goal.revisions }
  let prevAdj : Option ConfigurationRollout :=
    if 0 < pc then adjustPercentage goal.percent prev else some prev
  match prevAdj with
  | none => none
  | some prev2 =>
    if prev2.revisions.isEmpty then some ret0
    else
      match goal.revisions with
      | [] => none
      | gRev :: _ =>
        match prev2.revisions.get? (pc - 1) with
        | none => none
        | some lastPrev =>
          if gRev.revisionName = lastPrev.revisionName then
            some (stepRevisions
              { ret0 with
                revisions := prev2.revisions
                deadline := prev2.deadline
                nextStepTime := prev2.nextStepTime
                stepDuration := prev2.stepDuration
                startTime := prev2.startTime } nowTS)
          else
            some { ret0 with
              startTime := nowTS
              revisions :=
                (stealOne prev2.revisions).filter
                  (fun r => decide (r.percent ≠ 0))
                ++ [{ gRev with percent := 1 }] }

/-- Exact-rational model of a Go `float64` value: an unnormalized fraction
`num / den`.  Every float operation used by the source (division,
subtraction, addition, multiplication, comparison, `math.Floor`,
`math.Ceil`, `math.Max`, conversion to `int`) is modelled exactly over ℚ
via integer arithmetic on the components.  The concrete inputs evaluated
below stay far from any IEEE-754 rounding boundary, so the modelled
values coincide with the double values computed by the source.  (A
division by zero yields 0 where Go would produce NaN or ±Inf; this point
lies outside the preconditions of `computeProperties`.) -/
structure GoFloat where
  num : Int
  den : Int
deriving Repr, DecidableEq

/-- Embed an integer value, as Go's `float64(n)`. -/
def GoFloat.ofInt (n : Int) : GoFloat := ⟨n, 1⟩

/-- Normalize the sign of the denominator (same rational value). -/
def GoFloat.posden (a : GoFloat) : GoFloat :=
  if a.den < 0 then ⟨-a.num, -a.den⟩ else a

/-- Exact division of fractions, Go `a / b`. -/
def GoFloat.div (a b : GoFloat) : GoFloat := ⟨a.num * b.den, a.den * b.num⟩

/-- Exact subtraction, Go `a - b`. -/
def GoFloat.sub (a b : GoFloat) : GoFloat :=
  ⟨a.num * b.den - b.num * a.den, a.den * b.den⟩

/-- Exact addition, Go `a + b`. -/
def GoFloat.add (a b : GoFloat) : GoFloat :=
  ⟨a.num * b.den + b.num * a.den, a.den * b.den⟩

/-- Exact multiplication, Go `a * b`. -/
def GoFloat.mul (a b : GoFloat) : GoFloat := ⟨a.num * b.num, a.den * b.den⟩

/-- Exact comparison, Go `a < b`. -/
def GoFloat.blt (a b : GoFloat) : Bool :=
  decide ((a.posden).num * (b.posden).den < (b.posden).num * (a.posden).den)

/-- `math.Floor`, landing in `Int` (the source immediately converts the
integral float to `int`). -/
def GoFloat.floor (a : GoFloat) : Int :=
  let p := a.posden
  if p.den = 0 then 0 else p.num.fdiv p.den

/-- `math.Ceil`, landing in `Int`. -/
def GoFloat.ceil (a : GoFloat) : Int := -(GoFloat.floor ⟨-a.num, a.den⟩)

/-- Go's `int(f)` conversion: truncation toward zero. -/
def GoFloat.trunc (a : GoFloat) : Int :=
  if a.blt (GoFloat.ofInt 0) then a.ceil else a.floor

/-- `math.Max`. -/
def GoFloat.fmax (a b : GoFloat) : GoFloat := if a.blt b then b else a

/-- `computeProperties` (rollout.go:379-406).  `nowTS` is the value the
caller passed as `float64(nowTS)`.  Note line 405: the stored
`NextStepTime` is `int(nowTS + stepDuration*float64(time.Second))`,
where `time.Second = 10^9` (nanoseconds). -/
def computeProperties (cur : ConfigurationRollout)
    (nowTS minStepSec durationSecs : GoFloat) : ConfigurationRollout :=
  let numSteps0 := durationSecs.div minStepSec
  let pf := GoFloat.ofInt cur.percent
  let numSteps :=
    if pf.blt numSteps0 then pf.sub (GoFloat.ofInt 1) else numSteps0
  let stepSize := GoFloat.floor ((pf.sub (GoFloat.ofInt 1)).div numSteps)
  let stepDuration := GoFloat.ceil (durationSecs.div numSteps)
  { cur with
    stepDuration := stepDuration
    stepSize := stepSize
    nextStepTime :=
      GoFloat.trunc
        (nowTS.add ((GoFloat.ofInt stepDuration).mul
          (GoFloat.ofInt 1000000000))) }

/-- The constant `durationSecs = 120.0` (rollout.go:123). -/
def durationSecs : GoFloat := GoFloat.ofInt 120

/-- The `minStepSec` expression of `ObserveReady` (rollout.go:134):
`math.Max(1, math.Ceil(time.Duration(nowTS-c.StartTime).Seconds()))`.
`time.Duration(n)` interprets the integer `n` as nanoseconds, so
`.Seconds()` is exactly `(nowTS - startTime) / 10^9`. -/
def minStepSecOf (nowTS startTime : Int) : GoFloat :=
  GoFloat.fmax (GoFloat.ofInt 1)
    (GoFloat.ofInt (GoFloat.ceil
      ((GoFloat.ofInt (nowTS - startTime)).div (GoFloat.ofInt 1000000000))))

/-- Per-configuration body of `ObserveReady`'s loop (rollout.go:129-137). -/
def observeReadyCfg (nowTS : Int) (c : ConfigurationRollout) :
    ConfigurationRollout :=
  if c.stepDuration = 0 ∧ 0 < c.startTime then
    computeProperties c (GoFloat.ofInt nowTS) (minStepSecOf nowTS c.startTime)
      durationSecs
  else c

/-- `ObserveReady` (rollout.go:128-138), mutation modelled by returning
the updated rollout. -/
def ObserveReady (cur : Rollout) (nowTS : Int) : Rollout :=
  { configurations := cur.configurations.map (observeReadyCfg nowTS) }

/-- Lexicographic comparison of char lists, used to model Go's `<` on
strings (Go compares UTF-8 bytes; byte order and code-point order agree
under UTF-8). -/
def charListLt : List Char → List Char → Bool
  | _, [] => false
  | [], _ :: _ => true
  | c :: cs, d :: ds =>
    if c < d then true else if d < c then false else charListLt cs ds

/-- Go's `<` on strings. -/
def strLt (a b : String) : Bool := charListLt a.data b.data

/-- The comparison of `sortRollout` (rollout.go:411-417) as a total
preorder for insertion: `a` may sit before `b` iff `less(b, a)` fails. -/
def cfgLE (a b : ConfigurationRollout) : Bool :=
  if a.tag = b.tag then !(strLt b.configurationName a.configurationName)
  else strLt a.tag b.tag

/-- Ordered insertion for `sortRollout`. -/
def insertCfg (c : ConfigurationRollout) :
    List ConfigurationRollout → List ConfigurationRollout
  | [] => [c]
  | d :: ds => if cfgLE c d then c :: d :: ds else d :: insertCfg c ds

/-- Comparison sort by (tag, configuration name); a faithful model of
`sort.Slice` at rollout.go:410-418, which is only determined up to ties
in (tag, name). -/
def sortConfigs : List ConfigurationRollout → List ConfigurationRollout
  | [] => []
  | c :: cs => insertCfg c (sortConfigs cs)

/-- `sortRollout` (rollout.go:410-418). -/
def sortRollout (r : Rollout) : Rollout :=
  { configurations := sortConfigs r.configurations }

/-- The sorted-merge loop of `Step` (rollout.go:175-210) for one tag:
two-pointer intersection of the per-tag configuration lists, both sorted
by name.  The Go loop advances only `j` in its `default` branch (a config
present only in `prev`: name smaller than the current one, dropped with
no output); here that advance is performed by `dropWhile` before the
current config `c` is classified, so the recursion is structural on the
current list.  A `none` from `stepConfig` (a Go panic) propagates. -/
def mergeTag : List ConfigurationRollout → List ConfigurationRollout → Int →
    Option (List ConfigurationRollout)
  | [], _, _ => some []
  | c :: cs, pcfgs, nowTS =>
    match pcfgs.dropWhile
        (fun p => strLt p.configurationName c.configurationName) with
    | [] => (mergeTag cs [] nowTS).map (c :: ·)
    | p :: ps =>
      if c.configurationName = p.configurationName then
        if 1 < c.percent then
          match stepConfig c p nowTS, mergeTag cs ps nowTS with
          | some sc, some rest => some (sc :: rest)
          | _, _ => none
        else if c.percent = 1 then (mergeTag cs ps nowTS).map (c :: ·)
        else mergeTag cs ps nowTS
      else
        if c.percent ≠ 0 then (mergeTag cs (p :: ps) nowTS).map (c :: ·)
        else mergeTag cs (p :: ps) nowTS

/-- The distinct tags of a configuration list; models the key set of the
`currConfigs` map built at rollout.go:154-157 (iteration order is
irrelevant after `sortRollout`). -/
def tagsOf (cfgs : List ConfigurationRollout) : List String :=
  (cfgs.map (·.tag)).dedup

/-- One iteration of `Step`'s per-tag loop (rollout.go:163-211): when the
tag is absent from `prev`, only `ccfgs[0]` is appended (line 170);
otherwise the sorted merge runs. -/
def stepTag (cc pc : List ConfigurationRollout) (nowTS : Int) (t : String) :
    Option (List ConfigurationRollout) :=
  let ccfgs := cc.filter (fun c => decide (c.tag = t))
  let pcfgs := pc.filter (fun c => decide (c.tag = t))
  if pcfgs.isEmpty then some (ccfgs.take 1)
  else mergeTag ccfgs pcfgs nowTS

/-- Accumulate the per-tag results of `Step`'s loop, propagating a Go
panic as `none`. -/
def collectTags (cc pc : List ConfigurationRollout) (nowTS : Int) :
    List String → Option (List (List ConfigurationRollout))
  | [] => some []
  | t :: ts =>
    match stepTag cc pc nowTS t, collectTags cc pc nowTS ts with
    | some l, some ls => some (l :: ls)
    | _, _ => none

/-- `Step` (rollout.go:145-217).  Returns `cur` itself when `prev` is
empty, otherwise merges per tag and sorts the result. -/
def Step (cur prev : Rollout) (nowTS : Int) : Option Rollout :=
  if prev.configurations.isEmpty then some cur
  else
    match collectTags cur.configurations prev.configurations nowTS
        (tagsOf cur.configurations) with
    | none => none
    | some ls => some (sortRollout { configurations := ls.flatten })

/-! ### Concrete inputs used by the claim theorems below -/

/-- Goal target for the C1 failing input: one desired revision, total 40%. -/
def c1goal : ConfigurationRollout :=
  { configurationName := "cfg", percent := 40
    revisions := [{ revisionName := "rev-2", percent := 40 }] }

/-- Previous target for the C1 failing input: two revisions summing to its
`percent` of 100. -/
def c1prev : ConfigurationRollout :=
  { configurationName := "cfg", percent := 100
    revisions := [{ revisionName := "rev-1", percent := 50 },
                  { revisionName := "rev-2", percent := 50 }] }

/-- Input configuration for the C3 evaluation: total percent 100. -/
def c3cfg : ConfigurationRollout := { configurationName := "cfg", percent := 100 }

/-- Rollout for the C4 evaluation: one target mid-rollout
(`StartTime = 100 > 0`, `StepDuration = 0`), observed at `nowTS = 105`. -/
def c4roll : Rollout :=
  { configurations := [{ configurationName := "cfg", percent := 100, startTime := 100
                         revisions := [{ revisionName := "r1", percent := 99 },
                                       { revisionName := "r2", percent := 1 }] }] }

/-- Target for the C2 counterexample: four revisions of 10% each,
`StepSize = 5`, due at `nowTS = 0`. -/
def c2t : ConfigurationRollout :=
  { configurationName := "cfg", percent := 40, stepSize := 5
    revisions := [{ revisionName := "a", percent := 10 }, { revisionName := "b", percent := 10 },
                  { revisionName := "c", percent := 10 }, { revisionName := "d", percent := 10 }] }

/-- Target for the C2 witness: four revisions, `StepSize = 5`,
`StepDuration = 7`, due at `nowTS = 3`. -/
def c2w : ConfigurationRollout :=
  { configurationName := "cfg", percent := 40, stepSize := 5, stepDuration := 7
    revisions := [{ revisionName := "a", percent := 10 }, { revisionName := "b", percent := 10 },
                  { revisionName := "c", percent := 10 }, { revisionName := "d", percent := 10 }] }

/-- Target for the C5 counterexample and witness: one revision carrying
the whole 50%. -/
def c5cr : ConfigurationRollout :=
  { configurationName := "cfg", percent := 50
    revisions := [{ revisionName := "r1", percent := 50 }] }

/-- Target for the C9 counterexample: a single revision already exceeding
the target's `Percent`, not yet due (`nowTS = 0 < NextStepTime = 100`). -/
def c9t : ConfigurationRollout :=
  { configurationName := "cfg", percent := 10, stepSize := 0, nextStepTime := 100
    revisions := [{ revisionName := "a", percent := 40 }] }

/-- Target for the C9 witness: four revisions of 10% each, `StepSize = 5`,
due at `nowTS = 0`, `Percent = 40`. -/
def c9w : ConfigurationRollout :=
  { configurationName := "cfg", percent := 40, stepSize := 5
    revisions := [{ revisionName := "e", percent := 10 }, { revisionName := "f", percent := 10 },
                  { revisionName := "g", percent := 10 }, { revisionName := "d", percent := 10 }] }

/-- Target for the C10 counterexample: `Percent` is 0 while a revision
carries 5%. -/
def c10cr : ConfigurationRollout :=
  { configurationName := "cfg", percent := 0
    revisions := [{ revisionName := "a", percent := 5 }] }

/-- Target for the C10 witness: non-zero `Percent`. -/
def c10w : ConfigurationRollout :=
  { configurationName := "cfg", percent := 50
    revisions := [{ revisionName := "r1", percent := 50 }] }

/-- Result of `adjustPercentage 30 c10w`, for the C10 witness. -/
def c10w1 : ConfigurationRollout :=
  { configurationName := "cfg", percent := 50
    revisions := [{ revisionName := "r1", percent := 30 }] }

/-- First configuration of the new tag "t" for the C6 counterexample. -/
def c6a : ConfigurationRollout := { configurationName := "a", tag := "t", percent := 50 }

/-- Second configuration of the new tag "t" for the C6 counterexample;
it carries traffic, yet is dropped. -/
def c6b : ConfigurationRollout := { configurationName := "b", tag := "t", percent := 50 }

/-- Desired rollout for the C6 counterexample: two configurations under
the same tag "t". -/
def c6cur : Rollout := { configurations := [c6a, c6b] }

/-- Previous rollout for the C6 counterexample: non-empty, no tag "t". -/
def c6prev : Rollout :=
  { configurations := [{ configurationName := "q", tag := "u", percent := 100 }] }

/-- First configuration of the new tag "z" for the C6 witness. -/
def c6wa : ConfigurationRollout := { configurationName := "a", tag := "z", percent := 10 }

/-- Second configuration of the new tag "z" for the C6 witness. -/
def c6wb : ConfigurationRollout := { configurationName := "b", tag := "z", percent := 20 }

/-- Desired rollout for the C6 witness. -/
def c6wcur : Rollout := { configurations := [c6wa, c6wb] }

/-- Previous rollout for the C6 witness: non-empty, default tag only. -/
def c6wprev : Rollout :=
  { configurations := [{ configurationName := "q", tag := "", percent := 100 }] }

/-- Result of `Step c6wcur c6wprev 0`, for the C6 witness. -/
def c6wro : Rollout := { configurations := [c6wa] }

/-- Shared-tag configuration "a" for the C7 counterexample (1% traffic, so
`Step` copies it without invoking `stepConfig`). -/
def c7a : ConfigurationRollout :=
  { configurationName := "a", tag := "", percent := 1
    revisions := [{ revisionName := "a1", percent := 1 }] }

/-- New configuration "b" for the C7 counterexample: present only in
`cur`, zero percent, sorting after every name in `prev`'s list. -/
def c7b : ConfigurationRollout := { configurationName := "b", tag := "", percent := 0 }

/-- Desired rollout for the C7 counterexample. -/
def c7cur : Rollout := { configurations := [c7a, c7b] }

/-- Previous rollout for the C7 counterexample: only "a" under the tag. -/
def c7prev : Rollout := { configurations := [c7a] }

/-- Configuration for the first part of the C7 witness. -/
def c7wx : ConfigurationRollout := { configurationName := "x", tag := "", percent := 3 }

/-- Zero-percent configuration, sorting before `c7wp`, for the C7 witness. -/
def c7wc : ConfigurationRollout := { configurationName := "a", tag := "", percent := 0 }

/-- Previous-side configuration for the C7 witness. -/
def c7wp : ConfigurationRollout := { configurationName := "b", tag := "", percent := 9 }

/-- Goal target for the C8 counterexample: total shrinks from 100 to 50
while the desired revision changes. -/
def c8goal : ConfigurationRollout :=
  { configurationName := "cfg", percent := 50
    revisions := [{ revisionName := "rev-2", percent := 50 }] }

/-- Previous target for the C8 counterexample: one revision at 100. -/
def c8prev : ConfigurationRollout :=
  { configurationName := "cfg", percent := 100
    revisions := [{ revisionName := "rev-1", percent := 100 }] }

/-- Goal target for the C8 witness: same total as the previous target,
new desired revision. -/
def c8wg : ConfigurationRollout :=
  { configurationName := "cfg", percent := 100
    revisions := [{ revisionName := "rev-2", percent := 100 }] }

/-- Previous target for the C8 witness: one revision at 100. -/
def c8wp : ConfigurationRollout :=
  { configurationName := "cfg", percent := 100
    revisions := [{ revisionName := "rev-1", percent := 100 }] }


/-! ### Helper lemmas -/

theorem sumPercents_nil : sumPercents [] = 0 := rfl

theorem sumPercents_cons (r : RevisionRollout) (l : List RevisionRollout) :
    sumPercents (r :: l) = r.percent + sumPercents l := by
  simp [sumPercents]

theorem sumPercents_append (l₁ l₂ : List RevisionRollout) :
    sumPercents (l₁ ++ l₂) = sumPercents l₁ + sumPercents l₂ := by
  simp [sumPercents]

theorem addToLast_sum (l : List RevisionRollout) (d : Int) (h : l ≠ []) :
    sumPercents (addToLast l d) = sumPercents l + d := by
  induction l with
  | nil => exact absurd rfl h
  | cons r rs ih =>
    cases rs with
    | nil => simp [addToLast, sumPercents]
    | cons s ss =>
      rw [addToLast, sumPercents_cons, sumPercents_cons,
        ih (List.cons_ne_nil s ss)]
      ring

theorem shrinkRevs_sum (l : List RevisionRollout) (d : Int)
    (h0 : 0 ≤ d) (h1 : d ≤ sumPercents l) :
    sumPercents (shrinkRevs l d) = sumPercents l - d := by
  induction l generalizing d with
  | nil =>
    have hd : d = 0 := le_antisymm (by simpa [sumPercents] using h1) h0
    simp [shrinkRevs, hd]
  | cons r rs ih =>
    rw [shrinkRevs]
    split
    · rename_i hle
      have hd : d = 0 := le_antisymm hle h0
      simp [hd]
    · rename_i hgt
      rw [sumPercents_cons] at h1
      split
      · rw [sumPercents_cons, sumPercents_cons]
        ring
      · rename_i hrp
        push_neg at hrp
        rw [ih (d - r.percent) (by omega) (by omega), sumPercents_cons]
        ring

theorem adjustPercentage_shape (g : Int) (cr cr' : ConfigurationRollout)
    (h : adjustPercentage g cr = some cr') :
    ∃ rv, cr' = { cr with revisions := rv } := by
  simp only [adjustPercentage] at h
  by_cases hg : g = 0
  · rw [if_pos hg] at h
    exact ⟨[], (Option.some.inj h).symm⟩
  rw [if_neg hg] at h
  by_cases hlt : 0 < g - cr.percent
  · rw [if_pos hlt] at h
    rcases hrv : cr.revisions with _ | ⟨r, rs⟩ <;> rw [hrv] at h
    · exact absurd h (by simp)
    · exact ⟨_, (Option.some.inj h).symm⟩
  rw [if_neg hlt] at h
  by_cases hgt : g - cr.percent < 0
  · rw [if_pos hgt] at h
    exact ⟨_, (Option.some.inj h).symm⟩
  · rw [if_neg hgt] at h
    exact ⟨cr.revisions, (Option.some.inj h).symm⟩

theorem adjustPercentage_self (cr : ConfigurationRollout)
    (h : cr.percent ≠ 0) :
    adjustPercentage cr.percent cr = some cr := by
  unfold adjustPercentage
  simp [h]

theorem drainRev_nonneg (l : List RevisionRollout) (rem : Int)
    (h0 : 0 ≤ rem) (h : ∀ r ∈ l, 0 ≤ r.percent) :
    ∀ r ∈ drainRev l rem, 0 ≤ r.percent := by
  induction l generalizing rem with
  | nil =>
    intro x hx
    rw [drainRev] at hx
    split at hx <;> simp at hx
  | cons r rs ih =>
    intro x hx
    rw [drainRev] at hx
    split at hx
    · exact h x hx
    · split at hx
      · rename_i hgt hlt
        rcases List.mem_cons.mp hx with rfl | hxs
        · simp only []
          have hrp := h r (List.mem_cons_self r rs)
          omega
        · exact h x (List.mem_cons_of_mem _ hxs)
      · rename_i hgt hge
        push_neg at hgt hge
        exact ih (rem - r.percent) (by omega)
          (fun y hy => h y (List.mem_cons_of_mem _ hy)) x hx

theorem stealOne_all_nonpos (l : List RevisionRollout)
    (h : ∀ r ∈ l, r.percent ≤ 0) : stealOne l = l := by
  induction l with
  | nil => rfl
  | cons r rs ih =>
    rw [stealOne]
    have hany : rs.any (fun x => decide (0 < x.percent)) = false := by
      simp only [List.any_eq_false, decide_eq_true_eq]
      intro x hx
      exact not_lt.mpr (h x (List.mem_cons_of_mem _ hx))
    rw [hany]
    simp only [Bool.false_eq_true, if_false]
    rw [if_neg (not_lt.mpr (h r (List.mem_cons_self r rs)))]

theorem stealOne_split (l₁ l₂ : List RevisionRollout) (r : RevisionRollout)
    (hr : 0 < r.percent) (h2 : ∀ x ∈ l₂, x.percent ≤ 0) :
    stealOne (l₁ ++ r :: l₂) =
      l₁ ++ { r with percent := r.percent - 1 } :: l₂ := by
  induction l₁ with
  | nil =>
    rw [List.nil_append, stealOne]
    have hany : l₂.any (fun x => decide (0 < x.percent)) = false := by
      simp only [List.any_eq_false, decide_eq_true_eq]
      intro x hx
      exact not_lt.mpr (h2 x hx)
    rw [hany]
    simp only [Bool.false_eq_true, if_false]
    rw [if_pos hr, List.nil_append]
  | cons c cs ih =>
    rw [List.cons_append, stealOne]
    have hany : (cs ++ r :: l₂).any (fun x => decide (0 < x.percent)) = true := by
      simp only [List.any_eq_true, decide_eq_true_eq]
      exact ⟨r, by simp, hr⟩
    rw [hany]
    simp only [if_true]
    rw [ih, List.cons_append]

theorem getLast?_eq_get? (l : List RevisionRollout) :
    l.getLast? = l.get? (l.length - 1) := by
  induction l with
  | nil => rfl
  | cons r rs ih =>
    cases rs with
    | nil => rfl
    | cons s ss =>
      rw [List.getLast?_cons_cons, ih]
      simp [List.length_cons]


/-! ### Claim theorems -/

/-- C1: the claim states that `stepConfig` always returns a target whose
revision percentages sum to `goal.Percent`.  On this input — which
satisfies every precondition of the claim (the goal has a single revision
at `goal.Percent`, the previous revisions are non-negative and sum to
`prev.Percent`) — the source instead panics: `adjustPercentage` compacts
`prev.Revisions` from two entries to one, and `stepConfig` then reads
`prev.Revisions[pc-1]` with the stale length `pc = 2` (rollout.go:302 and
319), an index out of range.  The panic is `none` in this embedding, so
no target with the claimed sum is returned. -/
theorem stepConfig_compacted_index_panic : stepConfig c1goal c1prev 0 = none := by
  decide

/-- C3: the claim states `NextStepTime = nowTS + stepDuration` in the same
Unix-seconds unit as `nowTS`.  With `nowTS = 1000`, `minStepSec = 1`,
`targetDurationSec = 120` and `Percent = 100`, the code computes
`stepDuration = ceil(120/99) = 2` but stores
`NextStepTime = int(1000 + 2·10⁹) = 2000001000` (rollout.go:405 multiplies
by `float64(time.Second) = 10⁹`), not `1002`. -/
theorem computeProperties_nextStepTime_ns :
    (computeProperties c3cfg (GoFloat.ofInt 1000) (GoFloat.ofInt 1)
        (GoFloat.ofInt 120)).stepDuration = 2 ∧
    (computeProperties c3cfg (GoFloat.ofInt 1000) (GoFloat.ofInt 1)
        (GoFloat.ofInt 120)).nextStepTime = 2000001000 ∧
    (computeProperties c3cfg (GoFloat.ofInt 1000) (GoFloat.ofInt 1)
        (GoFloat.ofInt 120)).nextStepTime ≠
      1000 + (computeProperties c3cfg (GoFloat.ofInt 1000) (GoFloat.ofInt 1)
        (GoFloat.ofInt 120)).stepDuration := by
  decide

/-- C4: the claim states `minStepSec = max(1, ceil(nowTS - StartTime)) = 5`
for `nowTS - StartTime = 5`.  The code instead computes
`max(1, ceil(Duration(5).Seconds())) = max(1, ceil(5/10⁹)) = 1`
(rollout.go:134 converts the seconds difference as if it were
nanoseconds), so the cadence comes out as `stepSize = 1`,
`stepDuration = 2` instead of the cadence `stepSize = 4`,
`stepDuration = 5` that `minStepSec = 5` would give. -/
theorem ObserveReady_minStepSec_one :
    minStepSecOf 105 100 = GoFloat.ofInt 1 ∧
    minStepSecOf 105 100 ≠ GoFloat.ofInt 5 ∧
    (ObserveReady c4roll 105).configurations.map
      (fun c => (c.stepSize, c.stepDuration, c.nextStepTime)) =
      [(1, 2, 2000000105)] := by
  decide

/-- C2 counterexample: on a due target with four revisions the claim says
the second-oldest revision (`b`) loses traffic before any newer non-final
revision does.  The code instead leaves both `a` and `b` untouched and
drains the second-newest revision `c` (rollout.go:259 starts the loop at
`readPos = revLen-2`). -/
theorem stepRevisions_second_oldest_cex :
    (stepRevisions c2t 0).revisions =
      [⟨"a", 10⟩, ⟨"b", 10⟩, ⟨"c", 5⟩, ⟨"d", 15⟩] ∧
    c2t.revisions.map (·.percent) = [10, 10, 10, 10] := by
  decide

/-- C2 (amended): when `stepRevisions` applies a step, the `StepSize`
points moved to the newest revision are subtracted starting from the
second-newest revision and working backward toward the oldest; in
particular, when the second-newest revision `a` holds strictly more than
the (positive) step, it alone loses the step, every strictly older
revision keeps its percentage unchanged, the newest revision `b` gains
the step (capped at `Percent`), and `NextStepTime` advances by
`StepDuration`. -/
theorem stepRevisions_second_newest (t : ConfigurationRollout) (nowTS : Int)
    (l : List RevisionRollout) (a b : RevisionRollout)
    (hrev : t.revisions = l ++ [a, b])
    (hdue : t.nextStepTime ≤ nowTS)
    (hpos : 0 < t.stepSize)
    (hbig : t.stepSize < a.percent) :
    (stepRevisions t nowTS).revisions =
      l ++ [{ a with percent := a.percent - t.stepSize },
            { b with percent := if t.percent < b.percent + t.stepSize
                                then t.percent else b.percent + t.stepSize }] ∧
    (stepRevisions t nowTS).nextStepTime = nowTS + t.stepDuration := by
  have hnlt : ¬ nowTS < t.nextStepTime := not_lt.mpr hdue
  have hlen : ¬ t.revisions.length < 2 := by
    rw [hrev]; simp
  have hrv : t.revisions.reverse = b :: a :: l.reverse := by
    rw [hrev]; simp
  have hdr : drainRev (a :: l.reverse) t.stepSize =
      { a with percent := a.percent - t.stepSize } :: l.reverse := by
    rw [drainRev, if_neg (not_le.mpr hpos), if_pos hbig]
  rw [stepRevisions, if_neg hnlt, if_neg hlen]
  rw [hrv]
  simp only [hdr]
  constructor
  · simp [List.reverse_cons, List.append_assoc]
  · trivial

/-- C2 witness: the amended theorem applied to the concrete target `c2w`
(`StepSize = 5 < 10`, due at `nowTS = 3`): only the second-newest
revision `c` loses the step, the two older revisions are unchanged, and
`NextStepTime` becomes `3 + 7`. -/
theorem stepRevisions_second_newest_witness :
    (stepRevisions c2w 3).revisions =
      [⟨"a", 10⟩, ⟨"b", 10⟩, ⟨"c", 5⟩, ⟨"d", 15⟩] ∧
    (stepRevisions c2w 3).nextStepTime = 10 := by
  have h := stepRevisions_second_newest c2w 3
    [⟨"a", 10⟩, ⟨"b", 10⟩] ⟨"c", 10⟩ ⟨"d", 10⟩ rfl (by decide) (by decide)
    (by decide)
  refine ⟨?_, ?_⟩
  · rw [h.1]; decide
  · rw [h.2]; decide

/-- C5 counterexample: `adjustPercentage(0, cr)` clears the revisions, and
the "reverse" call `adjustPercentage(50, cr)` is a no-op because
`cr.Percent` still reads 50 (`diff = 0`); the revisions end up summing to
0, not to the original total 50. -/
theorem adjustPercentage_roundTrip_cex :
    (adjustPercentage 0 c5cr).bind (fun c => adjustPercentage c5cr.percent c) =
      some { c5cr with revisions := [] } ∧
    sumPercents c5cr.revisions = 50 ∧
    ((adjustPercentage 0 c5cr).bind
        (fun c => adjustPercentage c5cr.percent c)).map
      (fun c => sumPercents c.revisions) = some 0 := by
  decide

/-- C5 helper: under the claim's preconditions the first call succeeds and
leaves the revisions summing to `g` (not to the original total). -/
theorem adjustPercentage_fst (g : Int) (cr : ConfigurationRollout)
    (_h1 : ∀ r ∈ cr.revisions, 0 ≤ r.percent)
    (h2 : sumPercents cr.revisions = cr.percent)
    (h3 : 0 ≤ g) (h4 : cr.percent ≠ 0) :
    ∃ rv, adjustPercentage g cr = some { cr with revisions := rv } ∧
      sumPercents rv = g := by
  by_cases hg : g = 0
  · subst hg
    refine ⟨[], ?_, rfl⟩
    simp [adjustPercentage]
  · by_cases hlt : 0 < g - cr.percent
    · have hne : cr.revisions ≠ [] := by
        intro he
        rw [he] at h2
        exact h4 (h2 ▸ rfl)
      refine ⟨addToLast cr.revisions (g - cr.percent), ?_, ?_⟩
      · simp only [adjustPercentage]
        rw [if_neg hg, if_pos hlt]
        rcases hrv : cr.revisions with _ | ⟨r, rs⟩
        · exact absurd hrv hne
        · rfl
      · rw [addToLast_sum _ _ hne, h2]
        ring
    · by_cases hgt : g - cr.percent < 0
      · refine ⟨shrinkRevs cr.revisions (-(g - cr.percent)), ?_, ?_⟩
        · simp only [adjustPercentage]
          rw [if_neg hg, if_neg hlt, if_pos hgt]
        · rw [shrinkRevs_sum _ _ (by omega) (by omega), h2]
          ring
      · have hEq : g = cr.percent := by omega
        refine ⟨cr.revisions, ?_, by rw [h2, hEq]⟩
        rw [hEq, adjustPercentage_self cr h4]

/-- C5 (amended): for every non-negative `goal` and every target whose
non-negative revision percentages sum to its non-zero `Percent`, calling
`adjustPercentage(goal, cr)` and then `adjustPercentage(original, cr)` —
`original` being the initial `cr.Percent` — leaves the revision
percentages summing to `goal`, not to the original total: the second
call sees `diff = 0` (the first call never updates `cr.Percent`) and is
a no-op. -/
theorem adjustPercentage_roundTrip_sum (g : Int) (cr : ConfigurationRollout)
    (h1 : ∀ r ∈ cr.revisions, 0 ≤ r.percent)
    (h2 : sumPercents cr.revisions = cr.percent)
    (h3 : 0 ≤ g) (h4 : cr.percent ≠ 0) :
    ((adjustPercentage g cr).bind (fun c => adjustPercentage cr.percent c)).map
      (fun c => sumPercents c.revisions) = some g := by
  obtain ⟨rv, hfst, hsum⟩ := adjustPercentage_fst g cr h1 h2 h3 h4
  rw [hfst]
  have hsnd : adjustPercentage cr.percent { cr with revisions := rv } =
      some { cr with revisions := rv } := by
    have hself := adjustPercentage_self { cr with revisions := rv }
      (by simpa using h4)
    simpa using hself
  simp [hsnd, hsum]

/-- C5 witness: shrinking `c5cr` (total 50) to 30 and "reversing" with the
old total leaves the revisions summing to 30, not 50. -/
theorem adjustPercentage_roundTrip_sum_witness :
    ((adjustPercentage 30 c5cr).bind
        (fun c => adjustPercentage c5cr.percent c)).map
      (fun c => sumPercents c.revisions) = some 30 :=
  adjustPercentage_roundTrip_sum 30 c5cr (by decide) (by decide) (by decide)
    (by decide)

/-- C10 counterexample: after `adjustPercentage(3, cr)` the follow-up call
with the old `cr.Percent = 0` is not a no-op: the `goal == 0` branch
clears the revision list (rollout.go:225-226). -/
theorem adjustPercentage_second_call_cex :
    adjustPercentage 3 c10cr = some { c10cr with revisions := [⟨"a", 8⟩] } ∧
    adjustPercentage c10cr.percent { c10cr with revisions := [⟨"a", 8⟩] } =
      some { c10cr with revisions := [] } ∧
    ({ c10cr with revisions := [] } : ConfigurationRollout) ≠
      { c10cr with revisions := [⟨"a", 8⟩] } := by
  decide

/-- C10 (amended): `adjustPercentage(goal, cr)` modifies only
`cr.Revisions`: every other field — in particular `cr.Percent` — keeps
its prior value, so `cr.Percent` is not updated to `goal`; and an
immediately following call with goal equal to the old `cr.Percent` is a
no-op whenever that old value is non-zero, even though the revision sum
now differs from it. -/
theorem adjustPercentage_frame (g : Int) (cr cr' : ConfigurationRollout)
    (h : adjustPercentage g cr = some cr') :
    (cr'.configurationName = cr.configurationName ∧ cr'.tag = cr.tag ∧
     cr'.percent = cr.percent ∧ cr'.deadline = cr.deadline ∧
     cr'.startTime = cr.startTime ∧ cr'.nextStepTime = cr.nextStepTime ∧
     cr'.stepDuration = cr.stepDuration ∧ cr'.stepSize = cr.stepSize) ∧
    (cr.percent ≠ 0 → adjustPercentage cr.percent cr' = some cr') := by
  obtain ⟨rv, rfl⟩ := adjustPercentage_shape g cr cr' h
  refine ⟨⟨rfl, rfl, rfl, rfl, rfl, rfl, rfl, rfl⟩, fun hp => ?_⟩
  have hself := adjustPercentage_self { cr with revisions := rv }
    (by simpa using hp)
  simpa using hself

/-- C10 witness: the frame theorem applied to `adjustPercentage 30 c10w`:
`Percent` keeps its value 50 and the follow-up call with the old
`Percent` is a no-op. -/
theorem adjustPercentage_frame_witness :
    adjustPercentage 30 c10w = some c10w1 ∧
    c10w1.percent = c10w.percent ∧
    adjustPercentage c10w.percent c10w1 = some c10w1 := by
  have h := adjustPercentage_frame 30 c10w c10w1 (by decide)
  exact ⟨by decide, h.1.2.2.1, h.2 (by decide)⟩


/-- C9 counterexample: all percentages, `StepSize` and `Percent` are
non-negative, yet after `stepRevisions` (a no-op here — not due, fewer
than two revisions) the final revision still carries 40 > `Percent` = 10,
refuting the unconditional "never exceeds" reading of the claim. -/
theorem stepRevisions_cap_cex :
    stepRevisions c9t 0 = c9t ∧
    c9t.revisions.map (·.percent) = [40] ∧
    ¬ ((40 : Int) ≤ c9t.percent) := by
  decide

/-- C9 (amended): for every target with non-negative revision
percentages, non-negative `StepSize`, non-negative `Percent`, and whose
newest revision initially does not exceed `Percent`, after
`stepRevisions(target, nowTS)` no revision has a negative percentage and
the newest revision's percentage does not exceed `target.Percent`, for
every `nowTS`.  (The extra initial bound is needed because the not-due
and fewer-than-two-revisions paths are no-ops.) -/
theorem stepRevisions_nonneg_capped (t : ConfigurationRollout) (nowTS : Int)
    (h1 : ∀ r ∈ t.revisions, 0 ≤ r.percent)
    (h2 : 0 ≤ t.stepSize) (h3 : 0 ≤ t.percent)
    (h4 : ∀ r ∈ t.revisions.getLast?.toList, r.percent ≤ t.percent) :
    (∀ r ∈ (stepRevisions t nowTS).revisions, 0 ≤ r.percent) ∧
    (∀ r ∈ (stepRevisions t nowTS).revisions.getLast?.toList,
      r.percent ≤ t.percent) := by
  by_cases hdue : nowTS < t.nextStepTime
  · rw [stepRevisions, if_pos hdue]
    exact ⟨h1, h4⟩
  by_cases hlen : t.revisions.length < 2
  · rw [stepRevisions, if_neg hdue, if_pos hlen]
    exact ⟨h1, h4⟩
  rcases hrv : t.revisions.reverse with _ | ⟨last, olds⟩
  · rw [stepRevisions, if_neg hdue, if_neg hlen, hrv]
    exact ⟨h1, h4⟩
  · have hlast : last ∈ t.revisions := by
      have hm : last ∈ t.revisions.reverse := by
        rw [hrv]; exact List.mem_cons_self _ _
      exact List.mem_reverse.mp hm
    have holds : ∀ r ∈ olds, r ∈ t.revisions := by
      intro r hr
      have hm : r ∈ t.revisions.reverse := by
        rw [hrv]; exact List.mem_cons_of_mem _ hr
      exact List.mem_reverse.mp hm
    simp only [stepRevisions, if_neg hdue, if_neg hlen, hrv]
    constructor
    · intro r hr
      rw [List.mem_reverse] at hr
      rcases List.mem_cons.mp hr with rfl | hkept
      · by_cases hcap : t.percent < last.percent + t.stepSize
        · simpa [hcap] using h3
        · have hl0 := h1 last hlast
          simp only [if_neg hcap]
          omega
      · exact drainRev_nonneg olds t.stepSize h2
          (fun y hy => h1 y (holds y hy)) r hkept
    · intro r hr
      rw [List.getLast?_reverse, List.head?_cons] at hr
      simp only [Option.toList_some, List.mem_singleton] at hr
      subst hr
      by_cases hcap : t.percent < last.percent + t.stepSize
      · simp [hcap]
      · simp only [if_neg hcap]
        omega

/-- C9 witness: the amended theorem applied to the due four-revision
target `c9w`: the post-step revision `d` at 15 is non-negative and below
`Percent = 40`. -/
theorem stepRevisions_nonneg_capped_witness :
    (0 : Int) ≤ (⟨"d", 15⟩ : RevisionRollout).percent ∧
    (⟨"d", 15⟩ : RevisionRollout).percent ≤ c9w.percent := by
  have h := stepRevisions_nonneg_capped c9w 0 (by decide) (by decide)
    (by decide) (by decide)
  exact ⟨h.1 ⟨"d", 15⟩ (by decide), h.2 ⟨"d", 15⟩ (by decide)⟩

/-- C7 counterexample: the claim says a name present only in `cur` is
included iff its percent is non-zero, including names that sort after
every previous name.  Configuration "b" has percent 0 and sorts after
"a", yet it is included: once `prev`'s list is exhausted the code copies
remaining configs unconditionally (rollout.go:177-181), with no percent
check. -/
theorem Step_zero_percent_tail_cex :
    (Step c7cur c7prev 0).map (·.configurations) = some [c7a, c7b] ∧
    c7b.percent = 0 := by
  decide

/-- C7 (amended): in `Step`'s per-tag sorted merge, once `prev`'s per-tag
list is exhausted the remaining current configs are copied
unconditionally — no percent check (first conjunct); a name present only
in `cur` that still sorts before some remaining `prev` name is included
iff its percent is non-zero (second conjunct). -/
theorem mergeTag_new_name (nowTS : Int) :
    (∀ cc, mergeTag cc [] nowTS = some cc) ∧
    (∀ c cs p ps, strLt p.configurationName c.configurationName = false →
      c.configurationName ≠ p.configurationName →
      mergeTag (c :: cs) (p :: ps) nowTS =
        if c.percent ≠ 0 then (mergeTag cs (p :: ps) nowTS).map (c :: ·)
        else mergeTag cs (p :: ps) nowTS) := by
  constructor
  · intro cc
    induction cc with
    | nil => rfl
    | cons c cs ih =>
      rw [mergeTag]
      simp only [List.dropWhile_nil]
      rw [ih]
      rfl
  · intro c cs p ps hnlt hne
    rw [mergeTag]
    simp only [List.dropWhile_cons, hnlt, Bool.false_eq_true, if_false]
    rw [if_neg hne]

/-- C7 witness: a tail config (`c7wx`, 3%) is copied as-is against an
exhausted `prev` list; a zero-percent new name (`c7wc`) sorting before
the remaining `prev` name `c7wp` is dropped. -/
theorem mergeTag_new_name_witness :
    mergeTag [c7wx] [] 0 = some [c7wx] ∧
    mergeTag [c7wc] [c7wp] 0 = some [] := by
  have h := mergeTag_new_name 0
  constructor
  · exact h.1 [c7wx]
  · rw [h.2 c7wc [] c7wp [] (by decide) (by decide)]
    decide

/-- C8 counterexample: the claim says exactly 1 percentage point is
removed from the newest previous revision carrying non-zero traffic, so
`rev-1` (100%) should end at 99.  The code first redistributes
`prev.Revisions` to the new total (rollout.go:313-315), shrinking `rev-1`
to 50, and only then steals the 1 point: `rev-1` ends at 49, not 99. -/
theorem stepConfig_new_revision_cex :
    (stepConfig c8goal c8prev 5).map (fun c => c.revisions.map (·.percent)) =
      some [49, 1] ∧
    ¬ (stepConfig c8goal c8prev 5).map (fun c => c.revisions.map (·.percent)) =
      some [99, 1] := by
  decide

/-- C8 (amended): for every goal target with exactly one revision whose
name differs from the newest revision of a non-empty `prev`, provided
`goal.Percent = prev.Percent ≠ 0` (so the initial redistribution of
rollout.go:313-315 is a no-op), `stepConfig` returns a target with
`StartTime = nowTS`, the desired revision appended last at exactly 1%,
one point removed from the newest previous revision carrying positive
traffic (`stealOne`, characterized by the second and third conjuncts:
the latest positive revision is decremented; nothing is removed when no
revision is positive), zero-percent revisions dropped, and `Deadline`,
`NextStepTime`, `StepDuration`, `StepSize` left at zero. -/
theorem stepConfig_new_revision (goal prev : ConfigurationRollout)
    (gRev : RevisionRollout) (nowTS : Int)
    (hg : goal.revisions = [gRev])
    (hpe : goal.percent = prev.percent)
    (hpz : goal.percent ≠ 0)
    (hpr : prev.revisions ≠ [])
    (hname : ∀ r ∈ prev.revisions.getLast?.toList,
      gRev.revisionName ≠ r.revisionName) :
    stepConfig goal prev nowTS =
      some { configurationName := goal.configurationName
             tag := goal.tag
             percent := goal.percent
             revisions := (stealOne prev.revisions).filter
                 (fun r => decide (r.percent ≠ 0))
               ++ [{ gRev with percent := 1 }]
             deadline := 0
             startTime := nowTS
             nextStepTime := 0
             stepDuration := 0
             stepSize := 0 } ∧
    (∀ l₁ r₀ l₂, prev.revisions = l₁ ++ r₀ :: l₂ → 0 < r₀.percent →
      (∀ x ∈ l₂, x.percent ≤ 0) →
      stealOne prev.revisions =
        l₁ ++ { r₀ with percent := r₀.percent - 1 } :: l₂) ∧
    ((∀ x ∈ prev.revisions, x.percent ≤ 0) →
      stealOne prev.revisions = prev.revisions) := by
  have hpp : prev.percent ≠ 0 := by
    rw [← hpe]; exact hpz
  have hlen : 0 < prev.revisions.length := List.length_pos.mpr hpr
  have hadj : adjustPercentage goal.percent prev = some prev := by
    rw [hpe]; exact adjustPercentage_self prev hpp
  have hie : prev.revisions.isEmpty = false := by
    rcases hrv : prev.revisions with _ | ⟨x, xs⟩
    · exact absurd hrv hpr
    · rfl
  obtain ⟨rLast, hrl⟩ := Option.isSome_iff_exists.mp
    (List.getLast?_isSome.mpr hpr)
  have hget : prev.revisions.get? (prev.revisions.length - 1) = some rLast := by
    rw [← getLast?_eq_get?]; exact hrl
  have hnm : gRev.revisionName ≠ rLast.revisionName := by
    refine hname rLast ?_
    rw [hrl]
    exact List.mem_singleton.mpr rfl
  refine ⟨?_, ?_, ?_⟩
  · simp only [stepConfig, if_pos hlen, hadj, hie, hg, hget,
      Bool.false_eq_true, if_false, if_neg hnm]
  · intro l₁ r₀ l₂ hsplit hr0 hl2
    rw [hsplit]
    exact stealOne_split l₁ l₂ r₀ hr0 hl2
  · exact stealOne_all_nonpos prev.revisions

/-- C8 witness: `c8wg` desires `rev-2` while `c8wp` is fully on `rev-1`
with the same total 100: the result stamps `StartTime = 7`, moves 1 point
from `rev-1` (100 → 99) and introduces `rev-2` at 1%, with all cadence
fields zero — the spec's own §8 example. -/
theorem stepConfig_new_revision_witness :
    stepConfig c8wg c8wp 7 =
      some { configurationName := "cfg"
             tag := ""
             percent := 100
             revisions := [⟨"rev-1", 99⟩, ⟨"rev-2", 1⟩]
             deadline := 0
             startTime := 7
             nextStepTime := 0
             stepDuration := 0
             stepSize := 0 } ∧
    stealOne c8wp.revisions = [⟨"rev-1", 99⟩] := by
  have h := stepConfig_new_revision c8wg c8wp ⟨"rev-2", 100⟩ 7 rfl (by decide)
    (by decide) (by decide) (by decide)
  constructor
  · rw [h.1]; decide
  · have hs := h.2.1 [] ⟨"rev-1", 100⟩ [] rfl (by decide) (by decide)
    rw [hs]; decide


/-! ### Lemmas about the merge, used by the C6 theorem -/

theorem insertCfg_perm (c : ConfigurationRollout)
    (l : List ConfigurationRollout) :
    List.Perm (insertCfg c l) (c :: l) := by
  induction l with
  | nil => exact List.Perm.refl _
  | cons d ds ih =>
    rw [insertCfg]
    split
    · exact List.Perm.refl _
    · exact (List.Perm.cons d ih).trans (List.Perm.swap c d ds)

theorem sortConfigs_perm (l : List ConfigurationRollout) :
    List.Perm (sortConfigs l) l := by
  induction l with
  | nil => exact List.Perm.refl _
  | cons c cs ih =>
    exact (insertCfg_perm c (sortConfigs cs)).trans (List.Perm.cons c ih)

theorem stepRevisions_tag (t : ConfigurationRollout) (nowTS : Int) :
    (stepRevisions t nowTS).tag = t.tag := by
  rw [stepRevisions]
  split
  · rfl
  · split
    · rfl
    · split
      · rfl
      · rfl

theorem stepConfig_tag (g p : ConfigurationRollout) (nowTS : Int)
    (c : ConfigurationRollout) (h : stepConfig g p nowTS = some c) :
    c.tag = g.tag := by
  simp only [stepConfig] at h
  split at h
  · simp at h
  · split at h
    · simp only [Option.some.injEq] at h
      subst h
      rfl
    · split at h
      · simp at h
      · split at h
        · simp at h
        · split at h
          · simp only [Option.some.injEq] at h
            subst h
            rw [stepRevisions_tag]
          · simp only [Option.some.injEq] at h
            subst h
            rfl

theorem mergeTag_tags (nowTS : Int) (t : String) :
    ∀ cc, (∀ c ∈ cc, c.tag = t) → ∀ pc l, mergeTag cc pc nowTS = some l →
      ∀ x ∈ l, x.tag = t := by
  intro cc
  induction cc with
  | nil =>
    intro _ pc l h x hx
    simp only [mergeTag, Option.some.injEq] at h
    subst h
    simp at hx
  | cons c cs ih =>
    intro hcc pc l h x hx
    have hc : c.tag = t := hcc c (List.mem_cons_self _ _)
    have hcs : ∀ y ∈ cs, y.tag = t :=
      fun y hy => hcc y (List.mem_cons_of_mem _ hy)
    rw [mergeTag] at h
    split at h
    · rcases hm : mergeTag cs [] nowTS with _ | rest <;> rw [hm] at h
      · simp at h
      · simp only [Option.map_some', Option.some.injEq] at h
        subst h
        rcases List.mem_cons.mp hx with rfl | hxr
        · exact hc
        · exact ih hcs [] rest hm x hxr
    · rename_i p ps hdw
      split at h
      · split at h
        · rcases hsc : stepConfig c p nowTS with _ | sc <;>
            rcases hmt : mergeTag cs ps nowTS with _ | rest <;>
            rw [hsc, hmt] at h <;> simp only [] at h
          · simp at h
          · simp at h
          · simp at h
          · simp only [Option.some.injEq] at h
            subst h
            rcases List.mem_cons.mp hx with rfl | hxr
            · exact (stepConfig_tag c p nowTS x hsc).trans hc
            · exact ih hcs ps rest hmt x hxr
        · split at h
          · rcases hm : mergeTag cs ps nowTS with _ | rest <;> rw [hm] at h
            · simp at h
            · simp only [Option.map_some', Option.some.injEq] at h
              subst h
              rcases List.mem_cons.mp hx with rfl | hxr
              · exact hc
              · exact ih hcs ps rest hm x hxr
          · exact ih hcs ps l h x hx
      · split at h
        · rcases hm : mergeTag cs (p :: ps) nowTS with _ | rest <;> rw [hm] at h
          · simp at h
          · simp only [Option.map_some', Option.some.injEq] at h
            subst h
            rcases List.mem_cons.mp hx with rfl | hxr
            · exact hc
            · exact ih hcs (p :: ps) rest hm x hxr
        · exact ih hcs (p :: ps) l h x hx

theorem stepTag_tags (cc pc : List ConfigurationRollout) (nowTS : Int)
    (t : String) (l : List ConfigurationRollout)
    (h : stepTag cc pc nowTS t = some l) :
    ∀ x ∈ l, x.tag = t := by
  simp only [stepTag] at h
  split at h
  · simp only [Option.some.injEq] at h
    subst h
    intro x hx
    have hxm : x ∈ cc.filter (fun c => decide (c.tag = t)) :=
      List.take_subset 1 _ hx
    exact of_decide_eq_true (List.mem_filter.mp hxm).2
  · exact mergeTag_tags nowTS t _
      (fun c hcm => of_decide_eq_true (List.mem_filter.mp hcm).2) _ l h

theorem collectTags_not_mem (cc pc : List ConfigurationRollout) (nowTS : Int)
    (t : String) :
    ∀ ts ls, t ∉ ts → collectTags cc pc nowTS ts = some ls →
      (ls.flatten).filter (fun c => decide (c.tag = t)) = [] := by
  intro ts
  induction ts with
  | nil =>
    intro ls _ h
    simp only [collectTags, Option.some.injEq] at h
    subst h
    rfl
  | cons s ss ih =>
    intro ls hmem h
    rw [collectTags] at h
    rcases hst : stepTag cc pc nowTS s with _ | l₀ <;> rw [hst] at h
    · simp at h
    · rcases hct : collectTags cc pc nowTS ss with _ | ls' <;> rw [hct] at h
      · simp at h
      · simp only [Option.some.injEq] at h
        subst h
        rw [List.flatten_cons, List.filter_append]
        have h0 : l₀.filter (fun c => decide (c.tag = t)) = [] := by
          rw [List.filter_eq_nil_iff]
          intro a ha
          have has : a.tag = s := stepTag_tags cc pc nowTS s l₀ hst a ha
          simp only [has, decide_eq_true_eq]
          intro hst2
          exact hmem (hst2 ▸ List.mem_cons_self s ss)
        rw [h0, ih ls' (fun hm => hmem (List.mem_cons_of_mem _ hm)) hct]
        rfl

theorem collectTags_mem (cc pc : List ConfigurationRollout) (nowTS : Int)
    (t : String) :
    ∀ ts ls lt, ts.Nodup → t ∈ ts → collectTags cc pc nowTS ts = some ls →
      stepTag cc pc nowTS t = some lt →
      (ls.flatten).filter (fun c => decide (c.tag = t)) = lt := by
  intro ts
  induction ts with
  | nil =>
    intro ls lt _ hmem
    simp at hmem
  | cons s ss ih =>
    intro ls lt hnd hmem h hlt
    rw [collectTags] at h
    rcases hst : stepTag cc pc nowTS s with _ | l₀ <;> rw [hst] at h
    · simp at h
    · rcases hct : collectTags cc pc nowTS ss with _ | ls' <;> rw [hct] at h
      · simp at h
      · simp only [Option.some.injEq] at h
        subst h
        rw [List.flatten_cons, List.filter_append]
        by_cases hts : t = s
        · subst hts
          have hl : l₀ = lt := by
            rw [hst] at hlt
            exact Option.some.inj hlt
          subst hl
          have hftl : l₀.filter (fun c => decide (c.tag = t)) = l₀ :=
            List.filter_eq_self.mpr (fun a ha =>
              decide_eq_true (stepTag_tags cc pc nowTS t l₀ hst a ha))
          have hnm : t ∉ ss := (List.nodup_cons.mp hnd).1
          rw [hftl, collectTags_not_mem cc pc nowTS t ss ls' hnm hct,
            List.append_nil]
        · have hmm : t ∈ ss := by
            rcases List.mem_cons.mp hmem with h1 | h1
            · exact absurd h1 hts
            · exact h1
          have h0 : l₀.filter (fun c => decide (c.tag = t)) = [] := by
            rw [List.filter_eq_nil_iff]
            intro a ha
            have has : a.tag = s := stepTag_tags cc pc nowTS s l₀ hst a ha
            simp only [has, decide_eq_true_eq]
            intro hst2
            exact hts hst2.symm
          rw [h0, ih ls' lt (List.nodup_cons.mp hnd).2 hmm hct hlt,
            List.nil_append]

/-- C6 counterexample: tag "t" is present in `cur` and absent from a
non-empty `prev`; the claim says every configuration with that tag
appears in the result, but the code appends only `ccfgs[0]`
(rollout.go:170), so `c6b` (50% traffic) is dropped. -/
theorem Step_new_tag_cex :
    (Step c6cur c6prev 0).map (·.configurations) = some [c6a] ∧
    c6b ∈ c6cur.configurations ∧ c6b.percent ≠ 0 ∧ c6b ∉ [c6a] := by
  decide

/-- C6 (amended): in `Step(prev, nowTS)` with non-empty `prev`, for every
tag `t` absent from `prev`, the configurations with tag `t` in the
returned rollout are exactly the first configuration of `cur` carrying
that tag (`take 1` of the per-tag list); every later configuration with
that tag is dropped (rollout.go:170 appends only `ccfgs[0]`). -/
theorem Step_new_tag_only_first (cur prev : Rollout) (nowTS : Int)
    (t : String) (ro : Rollout)
    (hprev : prev.configurations ≠ [])
    (hnot : ∀ p ∈ prev.configurations, p.tag ≠ t)
    (hstep : Step cur prev nowTS = some ro) :
    ro.configurations.filter (fun c => decide (c.tag = t)) =
      (cur.configurations.filter (fun c => decide (c.tag = t))).take 1 := by
  have hie : prev.configurations.isEmpty = false := by
    rcases hrv : prev.configurations with _ | ⟨x, xs⟩
    · exact absurd hrv hprev
    · rfl
  simp only [Step, hie, Bool.false_eq_true, if_false] at hstep
  rcases hct : collectTags cur.configurations prev.configurations nowTS
      (tagsOf cur.configurations) with _ | ls <;> rw [hct] at hstep
  · simp at hstep
  · simp only [Option.some.injEq] at hstep
    subst hstep
    simp only [sortRollout]
    have hperm := (sortConfigs_perm ls.flatten).filter
      (fun c => decide (c.tag = t))
    have hpf : prev.configurations.filter (fun c => decide (c.tag = t)) = [] := by
      rw [List.filter_eq_nil_iff]
      intro a ha
      simp only [decide_eq_true_eq]
      exact hnot a ha
    have hst : stepTag cur.configurations prev.configurations nowTS t =
        some ((cur.configurations.filter (fun c => decide (c.tag = t))).take 1) := by
      simp [stepTag, hpf]
    by_cases hmem : t ∈ tagsOf cur.configurations
    · have hflt := collectTags_mem cur.configurations prev.configurations nowTS
        t (tagsOf cur.configurations) ls _ (List.nodup_dedup _) hmem hct hst
      rw [hflt] at hperm
      rcases htk : (cur.configurations.filter
          (fun c => decide (c.tag = t))).take 1 with _ | ⟨x, xs⟩
      · rw [htk] at hperm
        rw [htk]
        exact hperm.eq_nil
      · have hxs : xs = [] := by
          have hlen := congrArg List.length htk
          simp only [List.length_take, List.length_cons] at hlen
          have : xs.length = 0 := by omega
          exact List.length_eq_zero.mp this
        subst hxs
        rw [htk] at hperm
        rw [htk]
        exact List.perm_singleton.mp hperm
    · have hcur : cur.configurations.filter (fun c => decide (c.tag = t)) = [] := by
        rw [List.filter_eq_nil_iff]
        intro a ha
        simp only [decide_eq_true_eq]
        intro hat
        refine hmem ?_
        unfold tagsOf
        rw [List.mem_dedup]
        exact List.mem_map.mpr ⟨a, ha, hat⟩
      rw [hcur]
      have hflt := collectTags_not_mem cur.configurations prev.configurations
        nowTS t (tagsOf cur.configurations) ls hmem hct
      rw [hflt] at hperm
      simpa using hperm.eq_nil

/-- C6 witness: the amended theorem applied to `c6wcur` (two configs under
new tag "z") against the non-empty `c6wprev`: the result carries exactly
the first "z" configuration. -/
theorem Step_new_tag_only_first_witness :
    Step c6wcur c6wprev 0 = some c6wro ∧
    c6wro.configurations.filter (fun c => decide (c.tag = "z")) =
      (c6wcur.configurations.filter (fun c => decide (c.tag = "z"))).take 1 := by
  refine ⟨by decide, ?_⟩
  exact Step_new_tag_only_first c6wcur c6wprev 0 "z" c6wro (by decide)
    (by decide) (by decide)

end Traffic
